import Mathlib

/-!
Verification of the PUF-based key generator reference implementation.

The development shallowly embeds the two Python modules
src/python/SHA3/sha3_512.py and src/python/HMAC/hmac_sha3_512.py.
Bytes are modelled as lists of naturals below 256, Python integers as Int,
and Python code that may raise an exception returns an Except value.
The Python code delegates hashing to hashlib.sha3_512; that primitive is
embedded here as a full executable Keccak sponge following FIPS 202, so
every definition is computable.
-/

namespace PUFKeyGen

/-- Rotate a 64-bit lane left by n bits, values reduced modulo 2 to the 64. -/
def rotl64 (x n : Nat) : Nat :=
  (((x % 2 ^ 64) <<< (n % 64)) ||| ((x % 2 ^ 64) >>> (64 - n % 64))) % 2 ^ 64

/-- Bitwise complement on a 64-bit lane. -/
def not64 (x : Nat) : Nat :=
  Nat.xor (x % 2 ^ 64) (2 ^ 64 - 1)

/-- Lane of the 5 by 5 Keccak state at column x, row y; the state is a flat
list of 25 lanes indexed by x + 5 * y. -/
def getLane (s : List Nat) (x y : Nat) : Nat :=
  s.getD (x + 5 * y) 0

/-- Keccak theta step: column parity. -/
def thetaC (s : List Nat) (x : Nat) : Nat :=
  Nat.xor (getLane s x 0) (Nat.xor (getLane s x 1)
    (Nat.xor (getLane s x 2) (Nat.xor (getLane s x 3) (getLane s x 4))))

/-- Keccak theta step: column mixing term. -/
def thetaD (s : List Nat) (x : Nat) : Nat :=
  Nat.xor (thetaC s ((x + 4) % 5)) (rotl64 (thetaC s ((x + 1) % 5)) 1)

/-- Keccak theta step. -/
def theta (s : List Nat) : List Nat :=
  (List.range 25).map (fun i => Nat.xor (s.getD i 0) (thetaD s (i % 5)))

/-- Keccak rotation offsets, indexed by x + 5 * y, generated by walking the
pi trajectory from lane (1, 0): at step t the current lane gets offset
(t + 1)(t + 2) / 2 modulo 64, and lane (0, 0) keeps offset 0. -/
def rhoOffsets : List Nat :=
  ((List.range 24).foldl
    (fun (st : Nat × Nat × List Nat) t =>
      let x := st.1
      let y := st.2.1
      let tbl := st.2.2
      (y, (2 * x + 3 * y) % 5, tbl.set (x + 5 * y) ((t + 1) * (t + 2) / 2 % 64)))
    (1, 0, List.replicate 25 0)).2.2

/-- Keccak rho and pi steps combined: the lane at (x, y) of the output is
the lane at ((x + 3y) mod 5, x) of the input, rotated by its offset. -/
def rhoPi (s : List Nat) : List Nat :=
  (List.range 25).map (fun i =>
    let x := i % 5
    let y := i / 5
    let sx := (x + 3 * y) % 5
    let sy := x
    rotl64 (s.getD (sx + 5 * sy) 0) (rhoOffsets.getD (sx + 5 * sy) 0))

/-- Keccak chi step. -/
def chi (s : List Nat) : List Nat :=
  (List.range 25).map (fun i =>
    let x := i % 5
    let y := i / 5
    Nat.xor (s.getD i 0)
      (Nat.land (not64 (s.getD ((x + 1) % 5 + 5 * y) 0)) (s.getD ((x + 2) % 5 + 5 * y) 0)))

/-- Keccak iota step: mix the round constant into lane (0, 0). -/
def iotaStep (rc : Nat) (s : List Nat) : List Nat :=
  (List.range 25).map (fun i => if i = 0 then Nat.xor (s.getD 0 0) rc else s.getD i 0)

/-- State of the degree-8 LFSR of FIPS 202 section 3.2.5 after t steps,
starting from 1; stepping shifts left and reduces by 0x171 when bit 8 is
set. -/
def rcLFSRstate : Nat → Nat
  | 0 => 1
  | t + 1 =>
    let R := rcLFSRstate t <<< 1
    if 256 ≤ R then Nat.xor R 0x171 else R

/-- Bit t of the Keccak round-constant bit stream. -/
def rcBit (t : Nat) : Nat :=
  rcLFSRstate t % 2

/-- The 24 round constants of Keccak-f[1600]: round ir has bit 2 to the j
minus 1 equal to stream bit j + 7 ir, for j from 0 to 6. -/
def keccakRC : List Nat :=
  (List.range 24).map (fun ir =>
    (List.range 7).foldl (fun acc j => acc + rcBit (j + 7 * ir) * 2 ^ (2 ^ j - 1)) 0)

/-- One Keccak round. -/
def keccakRound (s : List Nat) (rc : Nat) : List Nat :=
  iotaStep rc (chi (rhoPi (theta s)))

/-- The Keccak-f[1600] permutation: 24 rounds. -/
def keccakF (s : List Nat) : List Nat :=
  keccakRC.foldl keccakRound s

/-- Pack up to eight bytes into one 64-bit lane, least significant byte first. -/
def laneOfBytes (b : List Nat) : Nat :=
  b.foldr (fun byte acc => byte + 256 * acc) 0

/-- Split a 72-byte rate block into its nine 64-bit lanes. -/
def bytesToLanes (block : List Nat) : List Nat :=
  (List.range 9).map (fun i => laneOfBytes ((block.drop (8 * i)).take 8))

/-- Absorb one rate block: xor its lanes into the first nine state lanes. -/
def xorBlockIntoState (s lanes : List Nat) : List Nat :=
  (List.range 25).map (fun i => Nat.xor (s.getD i 0) (lanes.getD i 0))

/-- Sponge absorption, fuelled so the recursion is structural; each step
consumes one 72-byte rate block. -/
def absorb : Nat → List Nat → List Nat → List Nat
  | 0, s, _ => s
  | _ + 1, s, [] => s
  | fuel + 1, s, msg@(_ :: _) =>
      absorb fuel (keccakF (xorBlockIntoState s (bytesToLanes (msg.take 72)))) (msg.drop 72)

/-- FIPS 202 SHA3 padding for rate 72 bytes: append 0x06, zero bytes, and a
final 0x80, merged into a single 0x86 byte when only one byte is free. -/
def sha3Pad (len : Nat) : List Nat :=
  let q := 72 - len % 72
  if q = 1 then [0x86] else 0x06 :: (List.replicate (q - 2) 0 ++ [0x80])

/-- SHA3-512 of a byte string: pad, absorb at rate 576 bits, and squeeze the
first 64 bytes of the state, each lane emitted least significant byte first.
This embeds the hashlib.sha3_512 call of the Python sources. -/
def sha3_512 (msg : List Nat) : List Nat :=
  let padded := msg ++ sha3Pad msg.length
  let final := absorb padded.length (List.replicate 25 0) padded
  (List.range 64).map (fun i => ((final.getD (i / 8) 0) >>> (8 * (i % 8))) % 256)

/-- Python exceptions raised by the two modules: ValueError carries the
offending key length, OverflowError is raised by int.to_bytes on an
out-of-range or negative value, TypeError by the isinstance dispatch. -/
inductive PyErr where
  | valueError (gotLen : Nat)
  | overflowError
  | typeError
deriving DecidableEq, Repr

/-- Little-endian fixed-width serialization of a natural: byte i is the
ith base-256 digit. -/
def natToLEbytes (nbytes v : Nat) : List Nat :=
  (List.range nbytes).map (fun i => (v >>> (8 * i)) % 256)

/-- Big-endian fixed-width serialization of a natural. -/
def natToBEbytes (nbytes v : Nat) : List Nat :=
  (natToLEbytes nbytes v).reverse

/-- Embeds the Python call v.to_bytes(nbytes, little): OverflowError on a
negative value or one that does not fit in nbytes bytes. -/
def intToBytesLE (nbytes : Nat) (v : Int) : Except PyErr (List Nat) :=
  if v < 0 then .error .overflowError
  else if v.toNat < 2 ^ (8 * nbytes) then .ok (natToLEbytes nbytes v.toNat)
  else .error .overflowError

/-- Embeds the Python call v.to_bytes(nbytes, big). -/
def intToBytesBE (nbytes : Nat) (v : Int) : Except PyErr (List Nat) :=
  if v < 0 then .error .overflowError
  else if v.toNat < 2 ^ (8 * nbytes) then .ok (natToBEbytes nbytes v.toNat)
  else .error .overflowError

/-- Serialization of a list of 32-bit words, four bytes per word, least
significant byte first: the join over word.to_bytes(4, little) in both
HMAC_SHA3_512.compute and SHA3_512_Hardware.hash_block_mode. The first
out-of-range word raises OverflowError. -/
def encodeWordsLE : List Int → Except PyErr (List Nat)
  | [] => .ok []
  | w :: ws =>
    match intToBytesLE 4 w with
    | .error e => .error e
    | .ok b =>
      match encodeWordsLE ws with
      | .error e => .error e
      | .ok rest => .ok (b ++ rest)

/-- Codec operation of the specification, section 4.1: each in-range word
emits exactly 4 bytes, least significant byte first, concatenated in
sequence order. -/
def encode_words_le (ws : List Nat) : List Nat :=
  (ws.map (fun w => natToLEbytes 4 w)).flatten

/-- Hex rendering of a nibble, lowercase, as Python bytes.hex produces. -/
def hexDigitChar (n : Nat) : Char :=
  if n < 10 then Char.ofNat (48 + n) else Char.ofNat (87 + n)

/-- Hex rendering of a byte string, two lowercase digits per byte. -/
def bytesToHex (bs : List Nat) : List Char :=
  (bs.map (fun b => [hexDigitChar (b / 16), hexDigitChar (b % 16)])).flatten

/-- The HMAC_SHA3_512 value object of hmac_sha3_512.py: its only field is
the normalized 64-byte key. -/
structure HMAC_SHA3_512 where
  key : List Nat
deriving DecidableEq, Repr

/-- The Union[bytes, int] key argument of the Python constructor. -/
inductive PyKeyInput where
  | bytes (b : List Nat)
  | int (v : Int)

/-- The Union[bytes, List[int]] message argument of compute. -/
inductive PyMessage where
  | bytes (b : List Nat)
  | words (ws : List Int)

namespace HMAC_SHA3_512

/-- The inner pad byte constant of the class. -/
def IPAD_BYTE : Nat := 0x36

/-- Embeds HMAC_SHA3_512.__init__: an int key is serialized to 64 bytes
big-endian, a bytes key must be exactly 64 bytes, anything else is a
TypeError. -/
def init : PyKeyInput → Except PyErr HMAC_SHA3_512
  | .int v =>
    match intToBytesBE 64 v with
    | .error e => .error e
    | .ok b => .ok ⟨b⟩
  | .bytes b =>
    if b.length = 64 then .ok ⟨b⟩ else .error (.valueError b.length)

/-- Embeds HMAC_SHA3_512._pad_key: append 8 zero bytes to the 64-byte key. -/
def _pad_key (h : HMAC_SHA3_512) : List Nat :=
  h.key ++ List.replicate 8 0

/-- Embeds HMAC_SHA3_512._compute_ipad_block: byte-wise xor of the padded
key with 72 bytes of value 0x36. -/
def _compute_ipad_block (h : HMAC_SHA3_512) : List Nat :=
  List.zipWith Nat.xor h._pad_key (List.replicate 72 IPAD_BYTE)

/-- Embeds HMAC_SHA3_512.compute: normalize the message to bytes, then
hash the ipad block concatenated with the message. -/
def compute (h : HMAC_SHA3_512) (m : PyMessage) : Except PyErr (List Nat) :=
  match m with
  | .words ws =>
    match encodeWordsLE ws with
    | .error e => .error e
    | .ok msgBytes => .ok (sha3_512 (h._compute_ipad_block ++ msgBytes))
  | .bytes b => .ok (sha3_512 (h._compute_ipad_block ++ b))

/-- Embeds HMAC_SHA3_512.compute_hex: the digest rendered in hex. -/
def compute_hex (h : HMAC_SHA3_512) (m : PyMessage) : Except PyErr (List Char) :=
  (h.compute m).map bytesToHex

end HMAC_SHA3_512

namespace SHA3_512_Hardware

/-- Embeds SHA3_512_Hardware.hash_puf_mode: serialize the 704-bit integer
whole into 88 bytes little-endian and hash directly. -/
def hash_puf_mode (data_704bit : Int) : Except PyErr (List Nat) :=
  match intToBytesLE 88 data_704bit with
  | .error e => .error e
  | .ok b => .ok (sha3_512 b)

/-- Embeds SHA3_512_Hardware.hash_block_mode: serialize each 32-bit word
to 4 bytes little-endian, concatenate in order, hash directly. -/
def hash_block_mode (words : List Int) : Except PyErr (List Nat) :=
  match encodeWordsLE words with
  | .error e => .error e
  | .ok b => .ok (sha3_512 b)

/-- Embeds SHA3_512_Hardware.hash_bytes: plain SHA3-512 of bytes. -/
def hash_bytes (data : List Nat) : List Nat :=
  sha3_512 data

end SHA3_512_Hardware

/-- The 704-bit all-0xAA test pattern of the specification: 88 bytes of
value 0xAA, read as one integer. -/
def pufAllAA : Int :=
  0xAAAAAAAAAAAAAAAAAAAAAAAAAAAAAAAAAAAAAAAAAAAAAAAAAAAAAAAAAAAAAAAAAAAAAAAAAAAAAAAAAAAAAAAAAAAAAAAAAAAAAAAAAAAAAAAAAAAAAAAAAAAAAAAAAAAAAAAAAAAAAAAAAAAAAAAAAAAAAAAAAAAAAAAAAAAAAAAA

end PUFKeyGen


namespace PUFKeyGen

/-- The digest of the embedded SHA3-512 primitive is always 64 bytes. -/
theorem sha3_512_length (msg : List Nat) : (sha3_512 msg).length = 64 := by
  simp [sha3_512]

/-- Lengths of the fixed-width serializations. -/
theorem natToLEbytes_length (n v : Nat) : (natToLEbytes n v).length = n := by
  simp [natToLEbytes]

theorem natToBEbytes_length (n v : Nat) : (natToBEbytes n v).length = n := by
  simp [natToBEbytes, natToLEbytes]

/-- A 32-bit in-range word serializes successfully. -/
theorem intToBytesLE4_ok (w : Int) (h0 : 0 ≤ w) (hlt : w < 2 ^ 32) :
    intToBytesLE 4 w = .ok (natToLEbytes 4 w.toNat) := by
  have h1 : ¬ w < 0 := by omega
  have h2 : w.toNat < 2 ^ (8 * 4) := by norm_num at hlt ⊢; omega
  unfold intToBytesLE
  rw [if_neg h1, if_pos h2]

/-- An out-of-range word raises OverflowError. -/
theorem intToBytesLE4_bad (w : Int) (h : w < 0 ∨ 2 ^ 32 ≤ w) :
    intToBytesLE 4 w = .error .overflowError := by
  rcases h with h1 | h2
  · simp [intToBytesLE, h1]
  · have h0 : ¬ w < 0 := by norm_num at h2; omega
    have h3 : ¬ w.toNat < 2 ^ (8 * 4) := by norm_num at h2 ⊢; omega
    unfold intToBytesLE
    rw [if_neg h0, if_neg h3]

/-- On a list of in-range words the code serialization agrees with the
codec of the specification. -/
theorem encodeWordsLE_ok (ws : List Int) (h : ∀ w ∈ ws, 0 ≤ w ∧ w < 2 ^ 32) :
    encodeWordsLE ws = .ok (encode_words_le (ws.map Int.toNat)) := by
  induction ws with
  | nil => rfl
  | cons w ws ih =>
    obtain ⟨hw0, hwlt⟩ := h w (List.mem_cons_self w ws)
    rw [show encodeWordsLE (w :: ws) = match intToBytesLE 4 w with
        | .error e => .error e
        | .ok b =>
          match encodeWordsLE ws with
          | .error e => .error e
          | .ok rest => .ok (b ++ rest) from rfl]
    rw [intToBytesLE4_ok w hw0 hwlt, ih (fun u hu => h u (List.mem_cons_of_mem w hu))]
    simp [encode_words_le]

/-- A list containing an out-of-range word fails to serialize, with
OverflowError and no truncation. -/
theorem encodeWordsLE_error (ws : List Int) (h : ∃ w ∈ ws, w < 0 ∨ 2 ^ 32 ≤ w) :
    encodeWordsLE ws = .error .overflowError := by
  induction ws with
  | nil => simp at h
  | cons w ws ih =>
    rcases h with ⟨u, hu, hbad⟩
    have step : encodeWordsLE (w :: ws) = match intToBytesLE 4 w with
        | .error e => .error e
        | .ok b =>
          match encodeWordsLE ws with
          | .error e => .error e
          | .ok rest => .ok (b ++ rest) := rfl
    by_cases hneg : w < 0
    · rw [step, intToBytesLE4_bad w (.inl hneg)]
    · by_cases hbig : 2 ^ 32 ≤ w
      · rw [step, intToBytesLE4_bad w (.inr hbig)]
      · have h0 : 0 ≤ w := by omega
        have hlt : w < 2 ^ 32 := by norm_num at hbig ⊢; omega
        have hmem : u ∈ ws := by
          rcases List.mem_cons.mp hu with rfl | hm
          · exact absurd hbad (by push_neg; constructor <;> omega)
          · exact hm
        rw [step, intToBytesLE4_ok w h0 hlt, ih ⟨u, hmem, hbad⟩]

/-- A successful big-endian serialization has exactly the requested width. -/
theorem intToBytesBE_ok_length (n : Nat) (v : Int) (b : List Nat)
    (h : intToBytesBE n v = .ok b) : b.length = n := by
  unfold intToBytesBE at h
  split at h
  · cases h
  · split at h
    · injection h with h
      subst h
      exact natToBEbytes_length n _
    · cases h

/-- Byte-wise xor with the same list twice returns the original list,
truncated to the length of the mask. -/
theorem zipWith_xor_cancel (l m : List Nat) :
    List.zipWith Nat.xor (List.zipWith Nat.xor l m) m = l.take m.length := by
  induction l generalizing m with
  | nil => simp
  | cons a l ih =>
    cases m with
    | nil => simp
    | cons b m =>
      simp [ih]
      exact Nat.xor_cancel_right b a

/-- Reduction of compute on a word message whose serialization succeeds. -/
theorem compute_words_ok (h : HMAC_SHA3_512) (ws : List Int) (bs : List Nat)
    (hws : encodeWordsLE ws = .ok bs) :
    h.compute (.words ws) = .ok (sha3_512 (h._compute_ipad_block ++ bs)) := by
  have hstep : h.compute (.words ws) = match encodeWordsLE ws with
      | .error e => .error e
      | .ok msgBytes => .ok (sha3_512 (h._compute_ipad_block ++ msgBytes)) := rfl
  rw [hstep, hws]

/-- Reduction of compute on a word message whose serialization fails. -/
theorem compute_words_error (h : HMAC_SHA3_512) (ws : List Int) (e : PyErr)
    (hws : encodeWordsLE ws = .error e) :
    h.compute (.words ws) = .error e := by
  have hstep : h.compute (.words ws) = match encodeWordsLE ws with
      | .error e => .error e
      | .ok msgBytes => .ok (sha3_512 (h._compute_ipad_block ++ msgBytes)) := rfl
  rw [hstep, hws]

/-- Reduction of hash_block_mode when the serialization succeeds. -/
theorem hash_block_mode_ok (ws : List Int) (bs : List Nat)
    (hws : encodeWordsLE ws = .ok bs) :
    SHA3_512_Hardware.hash_block_mode ws = .ok (sha3_512 bs) := by
  unfold SHA3_512_Hardware.hash_block_mode
  rw [hws]

/-- Reduction of hash_block_mode when the serialization fails. -/
theorem hash_block_mode_error (ws : List Int) (e : PyErr)
    (hws : encodeWordsLE ws = .error e) :
    SHA3_512_Hardware.hash_block_mode ws = .error e := by
  unfold SHA3_512_Hardware.hash_block_mode
  rw [hws]

/-- Reduction of the constructor on an integer key that serializes. -/
theorem init_int_ok (v : Int) (b : List Nat) (hv : intToBytesBE 64 v = .ok b) :
    HMAC_SHA3_512.init (.int v) = .ok ⟨b⟩ := by
  have hstep : HMAC_SHA3_512.init (.int v) = match intToBytesBE 64 v with
      | .error e => .error e
      | .ok b => .ok ⟨b⟩ := rfl
  rw [hstep, hv]

/-- Reduction of the constructor on an integer key that fails to serialize. -/
theorem init_int_error (v : Int) (e : PyErr) (hv : intToBytesBE 64 v = .error e) :
    HMAC_SHA3_512.init (.int v) = .error e := by
  have hstep : HMAC_SHA3_512.init (.int v) = match intToBytesBE 64 v with
      | .error e => .error e
      | .ok b => .ok ⟨b⟩ := rfl
  rw [hstep, hv]

end PUFKeyGen

namespace PUFKeyGen

/-- C1: for every key of exactly 64 bytes and every byte message, the
constructor accepts the key and compute returns SHA3-512 of the padded key
(key followed by 8 zero bytes, 72 bytes total) xored byte-wise with the
72-byte ipad of 0x36 bytes, concatenated with the message. -/
theorem C1_compute_bytes_correct (K M : List Nat) (hK : K.length = 64) :
    HMAC_SHA3_512.init (.bytes K) = .ok ⟨K⟩ ∧
    HMAC_SHA3_512.compute ⟨K⟩ (.bytes M) =
      .ok (sha3_512 (List.zipWith Nat.xor (K ++ List.replicate 8 0)
        (List.replicate 72 0x36) ++ M)) := by
  refine ⟨?_, rfl⟩
  simp [HMAC_SHA3_512.init, hK]

/-- Witness for C1 at a concrete 64-byte key and 2-byte message. -/
theorem C1_compute_bytes_correct_witness :
    (List.replicate 64 7).length = 64 ∧
    (HMAC_SHA3_512.init (.bytes (List.replicate 64 7)) = .ok ⟨List.replicate 64 7⟩ ∧
     HMAC_SHA3_512.compute ⟨List.replicate 64 7⟩ (.bytes [1, 2]) =
       .ok (sha3_512 (List.zipWith Nat.xor (List.replicate 64 7 ++ List.replicate 8 0)
         (List.replicate 72 0x36) ++ [1, 2]))) :=
  ⟨by simp, C1_compute_bytes_correct (List.replicate 64 7) [1, 2] (by simp)⟩

/-- C2: hash_puf_mode serializes every non-negative integer below 2 to the
704 whole into exactly 88 little-endian bytes and returns SHA3-512 of those
bytes; on the all-0xAA 704-bit pattern the result is SHA3-512 of the
88-byte buffer of 0xAA bytes. -/
theorem C2_hash_puf_mode_correct :
    (∀ v : Int, 0 ≤ v → v < 2 ^ 704 →
      SHA3_512_Hardware.hash_puf_mode v = .ok (sha3_512 (natToLEbytes 88 v.toNat))) ∧
    SHA3_512_Hardware.hash_puf_mode pufAllAA = .ok (sha3_512 (List.replicate 88 0xAA)) := by
  have hgen : ∀ v : Int, 0 ≤ v → v < 2 ^ 704 →
      SHA3_512_Hardware.hash_puf_mode v = .ok (sha3_512 (natToLEbytes 88 v.toNat)) := by
    intro v h0 hlt
    have h1 : ¬ v < 0 := by omega
    have h2 : v.toNat < 2 ^ (8 * 88) := by norm_num at hlt ⊢; omega
    have hser : intToBytesLE 88 v = .ok (natToLEbytes 88 v.toNat) := by
      unfold intToBytesLE
      rw [if_neg h1, if_pos h2]
    unfold SHA3_512_Hardware.hash_puf_mode
    rw [hser]
  refine ⟨hgen, ?_⟩
  have h1 := hgen pufAllAA (by norm_num [pufAllAA]) (by norm_num [pufAllAA])
  rw [h1]
  have h2 : natToLEbytes 88 pufAllAA.toNat = List.replicate 88 0xAA := by decide
  rw [h2]

/-- Witness for C2 at the concrete input 300. -/
theorem C2_hash_puf_mode_correct_witness :
    SHA3_512_Hardware.hash_puf_mode 300 = .ok (sha3_512 (natToLEbytes 88 (Int.toNat 300))) :=
  C2_hash_puf_mode_correct.1 300 (by norm_num) (by norm_num)

/-- C3: hash_block_mode serializes every in-range word to exactly 4 bytes
least significant byte first, concatenated in sequence order, and hashes
the result; for the single word 0x12345678 the bytes fed to the hash are
78 56 34 12. -/
theorem C3_hash_block_mode_correct :
    (∀ ws : List Int, (∀ w ∈ ws, 0 ≤ w ∧ w < 2 ^ 32) →
      SHA3_512_Hardware.hash_block_mode ws =
        .ok (sha3_512 (encode_words_le (ws.map Int.toNat)))) ∧
    SHA3_512_Hardware.hash_block_mode [0x12345678] =
      .ok (sha3_512 [0x78, 0x56, 0x34, 0x12]) := by
  constructor
  · intro ws h
    unfold SHA3_512_Hardware.hash_block_mode
    rw [encodeWordsLE_ok ws h]
  · exact hash_block_mode_ok [0x12345678] [0x78, 0x56, 0x34, 0x12] rfl

/-- Witness for C3 at the concrete word list with the single word 2. -/
theorem C3_hash_block_mode_correct_witness :
    SHA3_512_Hardware.hash_block_mode [2] =
      .ok (sha3_512 (encode_words_le ([2].map Int.toNat))) :=
  C3_hash_block_mode_correct.1 [2] (by decide)

/-- C4: a bytes key of any length other than 64 is rejected by the
constructor with the key-length ValueError carrying the offending length,
before any hashing occurs. -/
theorem C4_invalid_key_length (b : List Nat) (hb : b.length ≠ 64) :
    HMAC_SHA3_512.init (.bytes b) = .error (.valueError b.length) := by
  simp [HMAC_SHA3_512.init, hb]

/-- Witness for C4 at a concrete 63-byte key. -/
theorem C4_invalid_key_length_witness :
    (List.replicate 63 0).length ≠ 64 ∧
    HMAC_SHA3_512.init (.bytes (List.replicate 63 0)) =
      .error (.valueError (List.replicate 63 0).length) :=
  ⟨by simp, C4_invalid_key_length (List.replicate 63 0) (by simp)⟩

/-- C5: a word list containing a word outside the 32-bit range makes both
compute and hash_block_mode fail with the range OverflowError, producing no
digest and never truncating. -/
theorem C5_word_range_error (ws : List Int) (hbad : ∃ w ∈ ws, w < 0 ∨ 2 ^ 32 ≤ w)
    (h : HMAC_SHA3_512) :
    h.compute (.words ws) = .error .overflowError ∧
    SHA3_512_Hardware.hash_block_mode ws = .error .overflowError := by
  have he := encodeWordsLE_error ws hbad
  exact ⟨compute_words_error h ws _ he, hash_block_mode_error ws _ he⟩

/-- Witness for C5 at the concrete word 0x100000000 and an all-zero key. -/
theorem C5_word_range_error_witness :
    (∃ w ∈ [(0x100000000 : Int)], w < 0 ∨ 2 ^ 32 ≤ w) ∧
    (HMAC_SHA3_512.mk (List.replicate 64 0)).compute (.words [0x100000000]) =
      .error .overflowError ∧
    SHA3_512_Hardware.hash_block_mode [0x100000000] = .error .overflowError :=
  ⟨⟨0x100000000, by norm_num, by norm_num⟩,
   C5_word_range_error [0x100000000] ⟨0x100000000, by norm_num, by norm_num⟩
     (HMAC_SHA3_512.mk (List.replicate 64 0))⟩

/-- C6: for a valid 64-byte key and in-range words, compute on the word
sequence equals compute on its little-endian pre-encoded byte string. -/
theorem C6_words_bytes_equivalent (K : List Nat) (ws : List Int) (hK : K.length = 64)
    (hws : ∀ w ∈ ws, 0 ≤ w ∧ w < 2 ^ 32) :
    HMAC_SHA3_512.compute ⟨K⟩ (.words ws) =
      HMAC_SHA3_512.compute ⟨K⟩ (.bytes (encode_words_le (ws.map Int.toNat))) := by
  rw [compute_words_ok ⟨K⟩ ws _ (encodeWordsLE_ok ws hws)]
  rfl

/-- Witness for C6 at a concrete key and word list. -/
theorem C6_words_bytes_equivalent_witness :
    (List.replicate 64 5).length = 64 ∧
    HMAC_SHA3_512.compute ⟨List.replicate 64 5⟩ (.words [1, 2]) =
      HMAC_SHA3_512.compute ⟨List.replicate 64 5⟩
        (.bytes (encode_words_le ([1, 2].map Int.toNat))) :=
  ⟨by simp, C6_words_bytes_equivalent (List.replicate 64 5) [1, 2] (by simp) (by decide)⟩

/-- C7: for a valid 64-byte key the empty message, as zero words or as zero
bytes, is accepted and the digest is SHA3-512 of the 72-byte XOR block
alone. -/
theorem C7_empty_message (K : List Nat) (hK : K.length = 64) :
    HMAC_SHA3_512.compute ⟨K⟩ (.words []) =
      .ok (sha3_512 (HMAC_SHA3_512._compute_ipad_block ⟨K⟩)) ∧
    HMAC_SHA3_512.compute ⟨K⟩ (.bytes []) =
      .ok (sha3_512 (HMAC_SHA3_512._compute_ipad_block ⟨K⟩)) := by
  constructor <;> simp [HMAC_SHA3_512.compute, encodeWordsLE]

/-- Witness for C7 at a concrete 64-byte key. -/
theorem C7_empty_message_witness :
    HMAC_SHA3_512.compute ⟨List.replicate 64 3⟩ (.words []) =
      .ok (sha3_512 (HMAC_SHA3_512._compute_ipad_block ⟨List.replicate 64 3⟩)) ∧
    HMAC_SHA3_512.compute ⟨List.replicate 64 3⟩ (.bytes []) =
      .ok (sha3_512 (HMAC_SHA3_512._compute_ipad_block ⟨List.replicate 64 3⟩)) :=
  C7_empty_message (List.replicate 64 3) (by simp)

/-- C8: xoring the 72-byte inner pad into the XOR block recovers the padded
key block: the byte-wise xor with the pad is involutive on the padded key. -/
theorem C8_ipad_xor_involutive (K : List Nat) (hK : K.length = 64) :
    List.zipWith Nat.xor (HMAC_SHA3_512._compute_ipad_block ⟨K⟩)
      (List.replicate 72 HMAC_SHA3_512.IPAD_BYTE) = HMAC_SHA3_512._pad_key ⟨K⟩ := by
  unfold HMAC_SHA3_512._compute_ipad_block
  rw [zipWith_xor_cancel]
  have hlen : (HMAC_SHA3_512._pad_key ⟨K⟩).length = 72 := by
    simp [HMAC_SHA3_512._pad_key, hK]
  rw [List.length_replicate, ← hlen, List.take_length]

/-- Witness for C8 at a concrete 64-byte key. -/
theorem C8_ipad_xor_involutive_witness :
    List.zipWith Nat.xor (HMAC_SHA3_512._compute_ipad_block ⟨List.replicate 64 9⟩)
      (List.replicate 72 HMAC_SHA3_512.IPAD_BYTE) =
      HMAC_SHA3_512._pad_key ⟨List.replicate 64 9⟩ :=
  C8_ipad_xor_involutive (List.replicate 64 9) (by simp)

/-- C9: an integer key is accepted exactly when it is non-negative and
below 2 to the 512, is zero-extended to the 64-byte big-endian form, and
yields the same compute results as that byte form; out-of-range integers
raise OverflowError. -/
theorem C9_int_key_normalization :
    (∀ v : Int, 0 ≤ v → v < 2 ^ 512 →
      HMAC_SHA3_512.init (.int v) = .ok ⟨natToBEbytes 64 v.toNat⟩ ∧
      HMAC_SHA3_512.init (.bytes (natToBEbytes 64 v.toNat)) =
        .ok ⟨natToBEbytes 64 v.toNat⟩ ∧
      ∀ m, (HMAC_SHA3_512.init (.int v)).map (fun h => h.compute m) =
        (HMAC_SHA3_512.init (.bytes (natToBEbytes 64 v.toNat))).map
          (fun h => h.compute m)) ∧
    (∀ v : Int, v < 0 ∨ 2 ^ 512 ≤ v →
      HMAC_SHA3_512.init (.int v) = .error .overflowError) := by
  constructor
  · intro v h0 hlt
    have h1 : ¬ v < 0 := by omega
    have h2 : v.toNat < 2 ^ (8 * 64) := by norm_num at hlt ⊢; omega
    have hint : HMAC_SHA3_512.init (.int v) = .ok ⟨natToBEbytes 64 v.toNat⟩ := by
      refine init_int_ok v _ ?_
      unfold intToBytesBE
      rw [if_neg h1, if_pos h2]
    have hbytes : HMAC_SHA3_512.init (.bytes (natToBEbytes 64 v.toNat)) =
        .ok ⟨natToBEbytes 64 v.toNat⟩ := by
      simp [HMAC_SHA3_512.init, natToBEbytes_length]
    exact ⟨hint, hbytes, fun m => by rw [hint, hbytes]⟩
  · intro v hbad
    refine init_int_error v _ ?_
    rcases hbad with h1 | h2
    · unfold intToBytesBE
      rw [if_pos h1]
    · have h0 : ¬ v < 0 := by norm_num at h2; omega
      have h3 : ¬ v.toNat < 2 ^ (8 * 64) := by norm_num at h2 ⊢; omega
      unfold intToBytesBE
      rw [if_neg h0, if_neg h3]

/-- Witness for C9 at the concrete small integer key 5. -/
theorem C9_int_key_normalization_witness :
    HMAC_SHA3_512.init (.int 5) = .ok ⟨natToBEbytes 64 (Int.toNat 5)⟩ :=
  (C9_int_key_normalization.1 5 (by norm_num) (by norm_num)).1

/-- C10: every successfully constructed instance holds a 64-byte key;
compute succeeds on every byte message and on every in-range word message,
always returning a 64-byte digest, and compute_hex is the hex rendering of
compute with the key untouched. -/
theorem C10_instance_invariant (ki : PyKeyInput) (h : HMAC_SHA3_512)
    (hok : HMAC_SHA3_512.init ki = .ok h) :
    h.key.length = 64 ∧
    (∀ b : List Nat, ∃ d, h.compute (.bytes b) = .ok d ∧ d.length = 64) ∧
    (∀ ws : List Int, (∀ w ∈ ws, 0 ≤ w ∧ w < 2 ^ 32) →
      ∃ d, h.compute (.words ws) = .ok d ∧ d.length = 64) ∧
    (∀ m, h.compute_hex m = (h.compute m).map bytesToHex) := by
  refine ⟨?_, ?_, ?_, fun m => rfl⟩
  · cases ki with
    | bytes b =>
      by_cases hb : b.length = 64
      · simp [HMAC_SHA3_512.init, hb] at hok
        rw [← hok]
        exact hb
      · simp [HMAC_SHA3_512.init, hb] at hok
    | int v =>
      cases hv : intToBytesBE 64 v with
      | error e => rw [init_int_error v e hv] at hok; cases hok
      | ok b =>
        rw [init_int_ok v b hv] at hok
        injection hok with hok
        rw [← hok]
        exact intToBytesBE_ok_length 64 v b hv
  · intro b
    exact ⟨_, rfl, sha3_512_length _⟩
  · intro ws hws
    exact ⟨_, compute_words_ok h ws _ (encodeWordsLE_ok ws hws), sha3_512_length _⟩

/-- Witness for C10 at a concrete all-zero 64-byte key. -/
theorem C10_instance_invariant_witness :
    (HMAC_SHA3_512.mk (List.replicate 64 0)).key.length = 64 ∧
    (∀ b : List Nat, ∃ d,
      (HMAC_SHA3_512.mk (List.replicate 64 0)).compute (.bytes b) = .ok d ∧
      d.length = 64) ∧
    (∀ ws : List Int, (∀ w ∈ ws, 0 ≤ w ∧ w < 2 ^ 32) →
      ∃ d, (HMAC_SHA3_512.mk (List.replicate 64 0)).compute (.words ws) = .ok d ∧
        d.length = 64) ∧
    (∀ m, (HMAC_SHA3_512.mk (List.replicate 64 0)).compute_hex m =
      ((HMAC_SHA3_512.mk (List.replicate 64 0)).compute m).map bytesToHex) :=
  C10_instance_invariant (.bytes (List.replicate 64 0))
    (HMAC_SHA3_512.mk (List.replicate 64 0)) (by simp [HMAC_SHA3_512.init])

end PUFKeyGen
